import Mathlib

/-!
# A shallow embedding of the siggo conversation model

This file embeds the in-memory conversation model of `model/model.go`
(package `model` of the siggo messaging client) and proves the claimed
properties of its operations.

Modelling conventions, chosen to mirror the Go source faithfully:

* Go `map` values are modelled as association lists (`List (κ × β)`)
  with `lookupA`/`insertA`; `insertA` replaces the binding in place when
  the key is present and appends otherwise, which is observationally
  equivalent to a Go map write.
* Go `int64` timestamps are modelled as `Int` (no arithmetic is ever
  performed on them, only equality tests, so overflow is irrelevant).
* `*Contact` pointers are modelled as `Nat` allocation identifiers: the
  `Siggo` state carries a `heap` from identifier to `Contact` value and
  a `nextPtr` allocation counter.  The Go `conversations` map is keyed
  by `*Contact`, hence keyed by `Nat` here.  `Siggo.wf` states that all
  identifiers stored in the state are below `nextPtr`, which is exactly
  the guarantee a Go allocator provides (a fresh pointer is distinct
  from every stored pointer).
* The `NewInfo` callback is a mutable function field in Go; here each
  event handler returns the list of conversation values it invoked the
  callback with, together with its `error` return value (`Option String`,
  `none` meaning the Go `nil` error).
* The `signal.Message` payloads from the transport are modelled by the
  fields the handlers actually read: `ReceivedEvent` mirrors
  `Envelope.Source` / `Envelope.DataMessage.{Message,Timestamp}` and
  `ReceiptEvent` mirrors `Envelope.Source` /
  `Envelope.ReceiptMessage.{IsDelivery,IsRead,Timestamps}`.
-/

namespace Siggo2Proof

/-- Association-list lookup, modelling a read from a Go map. -/
def lookupA {α β : Type} [DecidableEq α] : List (α × β) → α → Option β
  | [], _ => none
  | (a, b) :: t, k => if a = k then some b else lookupA t k

/-- Association-list write, modelling `m[k] = v` on a Go map: replaces the
binding in place when the key is present, appends otherwise. -/
def insertA {α β : Type} [DecidableEq α] : List (α × β) → α → β → List (α × β)
  | [], k, v => [(k, v)]
  | (a, b) :: t, k, v => if a = k then (k, v) :: t else (a, b) :: insertA t k v

@[simp]
theorem lookupA_nil {α β : Type} [DecidableEq α] (k : α) :
    lookupA ([] : List (α × β)) k = none := rfl

@[simp]
theorem lookupA_cons {α β : Type} [DecidableEq α] (a : α) (b : β) (t : List (α × β)) (k : α) :
    lookupA ((a, b) :: t) k = if a = k then some b else lookupA t k := rfl

@[simp]
theorem lookupA_insertA_self {α β : Type} [DecidableEq α] (l : List (α × β)) (k : α) (v : β) :
    lookupA (insertA l k v) k = some v := by
  induction l with
  | nil => simp [insertA]
  | cons hd tl ih =>
    obtain ⟨a, b⟩ := hd
    by_cases hak : a = k
    · simp [insertA, hak]
    · simp [insertA, hak, ih]

theorem lookupA_insertA_ne {α β : Type} [DecidableEq α] (l : List (α × β)) (k k' : α) (v : β)
    (h : k' ≠ k) : lookupA (insertA l k v) k' = lookupA l k' := by
  induction l with
  | nil => simp [insertA, lookupA, Ne.symm h]
  | cons hd tl ih =>
    obtain ⟨a, b⟩ := hd
    by_cases hak : a = k
    · subst hak
      simp [insertA, lookupA, Ne.symm h]
    · simp only [insertA, if_neg hak]
      by_cases hak' : a = k'
      · simp [lookupA, hak']
      · simp [lookupA, hak', ih]

theorem lookupA_some_mem {α β : Type} [DecidableEq α] {l : List (α × β)} {k : α} {v : β}
    (h : lookupA l k = some v) : (k, v) ∈ l := by
  induction l with
  | nil => simp [lookupA] at h
  | cons hd tl ih =>
    obtain ⟨a, b⟩ := hd
    by_cases hak : a = k
    · subst hak
      rw [lookupA_cons, if_pos rfl] at h
      obtain rfl : b = v := Option.some.inj h
      exact List.mem_cons_self _ _
    · rw [lookupA_cons, if_neg hak] at h
      exact List.mem_cons_of_mem _ (ih h)

theorem insertA_insertA_same {α β : Type} [DecidableEq α] (l : List (α × β)) (k : α) (v w : β) :
    insertA (insertA l k v) k w = insertA l k w := by
  induction l with
  | nil => simp [insertA]
  | cons hd tl ih =>
    obtain ⟨a, b⟩ := hd
    by_cases hak : a = k
    · simp [insertA, hak]
    · simp [insertA, hak, ih]

/-! ## The data model (`model.go`) -/

/-- Go: `type Config struct { UserName string; UserNumber string }`. -/
structure Config where
  UserName : String
  UserNumber : String
deriving DecidableEq

/-- Go: `type Contact struct { Number string; Name string }`. -/
structure Contact where
  Number : String
  Name : String
deriving DecidableEq

/-- Go: `type Message struct { Content string; From string; Timestamp int64;
IsDelivered bool; IsRead bool }`. -/
structure Message where
  Content : String
  From : String
  Timestamp : Int
  IsDelivered : Bool
  IsRead : Bool
deriving DecidableEq

instance : Inhabited Message := ⟨⟨"", "", 0, false, false⟩⟩

/-- Go: `var DeliveryStatus map[bool]string = {true: "<", false: "?"}`. -/
def DeliveryStatus (b : Bool) : String := if b then "<" else "?"

/-- Go: `var ReadStatus map[bool]string = {true: ">", false: "?"}`. -/
def ReadStatus (b : Bool) : String := if b then ">" else "?"

/-- Go: `func (m *Message) String() string`, the
`fmt.Sprintf("%d|%s%s %s: %s\n", ...)` line form of one message. -/
def Message.string (m : Message) : String :=
  toString m.Timestamp ++ "|" ++ DeliveryStatus m.IsDelivered ++ ReadStatus m.IsRead
    ++ " " ++ m.From ++ ": " ++ m.Content ++ "\n"

/-- Go: `type Conversation struct`.  The `Contact` field is the `*Contact`
pointer, modelled as an allocation identifier. -/
structure Conversation where
  Contact : Nat
  Messages : List (Int × Message)
  MessageOrder : List Int
  HasNewMessage : Bool
deriving DecidableEq

/-- Go: `func (c *Conversation) String() string` — concatenates the line
forms of the stored messages following `MessageOrder`.  Go indexes the map
directly (`c.Messages[k]`), which under the conversation invariant always
hits; a missing key (nil pointer dereference in Go) is rendered from the
default message here. -/
def Conversation.string (c : Conversation) : String :=
  c.MessageOrder.foldl (fun out k => out ++ ((lookupA c.Messages k).getD default).string) ""

/-- Go: `func (c *Conversation) AddMessage(message *Message)`. -/
def Conversation.AddMessage (c : Conversation) (message : Message) : Conversation :=
  let ok := (lookupA c.Messages message.Timestamp).isSome
  let c1 : Conversation := { c with Messages := insertA c.Messages message.Timestamp message }
  if ok then c1
  else { c1 with MessageOrder := c1.MessageOrder ++ [message.Timestamp], HasNewMessage := true }

/-- Go: `func NewConversation(contact *Contact) *Conversation`. -/
def NewConversation (contact : Nat) : Conversation :=
  { Contact := contact, Messages := [], MessageOrder := [], HasNewMessage := false }

/-! ## The coordinator state (`type Siggo struct`) -/

/-- The event payload read by `onReceived`: `msg.Envelope.Source`,
`msg.Envelope.DataMessage.Message` and `msg.Envelope.DataMessage.Timestamp`. -/
structure ReceivedEvent where
  Source : String
  MessageText : String
  Timestamp : Int
deriving DecidableEq

/-- The event payload read by `onReceipt`: `msg.Envelope.Source`,
`msg.Envelope.ReceiptMessage.{IsDelivery, IsRead, Timestamps}`. -/
structure ReceiptEvent where
  Source : String
  IsDelivery : Bool
  IsRead : Bool
  Timestamps : List Int
deriving DecidableEq

/-- Go: `type Siggo struct`.  `heap` and `nextPtr` model the `*Contact`
pointers: `contacts` maps a number to a pointer, `heap` maps a pointer to
the `Contact` it points at, and `conversations` is keyed by pointer as in
the Go `map[*Contact]*Conversation`. -/
structure Siggo where
  config : Config
  contacts : List (String × Nat)
  heap : List (Nat × Contact)
  conversations : List (Nat × Conversation)
  nextPtr : Nat
deriving DecidableEq

/-- The pointer discipline a Go allocator guarantees: every pointer stored
anywhere in the state was allocated before `nextPtr`, and every registered
contact pointer dereferences. -/
def Siggo.wf (s : Siggo) : Prop :=
  (∀ pr ∈ s.contacts, pr.2 < s.nextPtr ∧ (lookupA s.heap pr.2).isSome) ∧
  (∀ pr ∈ s.conversations, pr.1 < s.nextPtr) ∧
  (∀ pr ∈ s.heap, pr.1 < s.nextPtr)

instance (s : Siggo) : Decidable s.wf := by
  unfold Siggo.wf
  infer_instance

/-- Go: `func (s *Siggo) newConversation(contact *Contact) *Conversation`. -/
def Siggo.newConversation (s : Siggo) (contact : Nat) : Siggo × Conversation :=
  let conv := NewConversation contact
  ({ s with conversations := insertA s.conversations contact conv }, conv)

/-- Go: `func (s *Siggo) newContact(number string) *Contact` — allocates a
fresh `Contact` with empty name and registers it. -/
def Siggo.newContact (s : Siggo) (number : String) : Siggo × Nat :=
  let p := s.nextPtr
  ({ s with
      heap := insertA s.heap p { Number := number, Name := "" },
      contacts := insertA s.contacts number p,
      nextPtr := p + 1 }, p)

/-- Go: `func (s *Siggo) onSend(message *Message, conv *Conversation)` — a
no-op extension point. -/
def Siggo.onSend (_s : Siggo) (_message : Message) (_conv : Conversation) : Unit := ()

/-- Go: `func (s *Siggo) Send(msg string, contact *Contact) error`.  The
transport call `s.signal.Send(contact.Number, msg)` is abstracted by its
result `transportResult` (`none` = `nil` error).  The pending message is
constructed and handed to the no-op `onSend`, then the transport result is
returned. -/
def Siggo.Send (s : Siggo) (msg : String) (contact : Nat)
    (transportResult : Option String) : Siggo × Option String :=
  let resolved : Siggo × Conversation :=
    match lookupA s.conversations contact with
    | some conv => (s, conv)
    | none => s.newConversation contact
  let s1 := resolved.1
  let conv := resolved.2
  let message : Message :=
    { Content := msg, From := s.config.UserName, Timestamp := 0,
      IsDelivered := false, IsRead := false }
  let _ := s1.onSend message conv
  (s1, transportResult)

/-- Go: `func (s *Siggo) onReceived(msg *signal.Message) error`.  Returns
the updated state, the list of conversations passed to the `NewInfo`
callback, and the Go `error` result.  When the registered contact pointer
is dangling (impossible in Go, ruled out by `Siggo.wf`) the display name
falls back to the raw identifier, matching a zero-valued `Contact`. -/
def Siggo.onReceived (s : Siggo) (e : ReceivedEvent) :
    Siggo × List Conversation × Option String :=
  let resolved : Siggo × Nat × String :=
    match lookupA s.contacts e.Source with
    | none =>
        -- Go: `c = &Contact{Number: contactNumber}; s.contacts[c.Number] = c`
        let p := s.nextPtr
        ({ s with
            heap := insertA s.heap p { Number := e.Source, Name := "" },
            contacts := insertA s.contacts e.Source p,
            nextPtr := p + 1 }, p, e.Source)
    | some p =>
        match lookupA s.heap p with
        | some c => (s, p, if c.Name = "" then e.Source else c.Name)
        | none => (s, p, e.Source)
  let s1 := resolved.1
  let p := resolved.2.1
  let fromStr := resolved.2.2
  let message : Message :=
    { Content := e.MessageText, From := fromStr, Timestamp := e.Timestamp,
      IsDelivered := true, IsRead := false }
  let withConv : Siggo × Conversation :=
    match lookupA s1.conversations p with
    | some conv => (s1, conv)
    | none => s1.newConversation p
  let s2 := withConv.1
  let conv2 := withConv.2.AddMessage message
  ({ s2 with conversations := insertA s2.conversations p conv2 }, [conv2], none)

/-- The in-place mutation of the receipt loop: `message.IsDelivered =
receiptMsg.IsDelivery; message.IsRead = receiptMsg.IsRead`. -/
def updFlags (d r : Bool) (m : Message) : Message :=
  { m with IsDelivered := d, IsRead := r }

/-- The body of the receipt loop in `onReceipt`: for each timestamp, if a
message is stored under it, overwrite its `IsDelivered`/`IsRead` fields
with the receipt's flags; otherwise skip the timestamp. -/
def updateReceipt (d r : Bool) (msgs : List (Int × Message)) (tss : List Int) :
    List (Int × Message) :=
  tss.foldl
    (fun ms ts =>
      match lookupA ms ts with
      | none => ms
      | some m => insertA ms ts (updFlags d r m))
    msgs

/-- Go: `func (s *Siggo) onReceipt(msg *signal.Message) error`.  Resolves
(creating if absent) the contact and conversation for the source, then
edits the referenced messages in place.  Never notifies and always
returns `nil`. -/
def Siggo.onReceipt (s : Siggo) (e : ReceiptEvent) :
    Siggo × List Conversation × Option String :=
  let cp : Siggo × Nat :=
    match lookupA s.contacts e.Source with
    | some p => (s, p)
    | none => s.newContact e.Source
  let s1 := cp.1
  let p := cp.2
  let withConv : Siggo × Conversation :=
    match lookupA s1.conversations p with
    | some conv => (s1, conv)
    | none => s1.newConversation p
  let s2 := withConv.1
  let conv := withConv.2
  let conv2 : Conversation :=
    { conv with Messages := updateReceipt e.IsDelivery e.IsRead conv.Messages e.Timestamps }
  ({ s2 with conversations := insertA s2.conversations p conv2 }, [], none)

/-- Go: `func GetContacts(userNumber string) map[string]*Contact` — the
initial contact registry holding only the local user, named "me".  The
single contact is allocated at pointer 0; the function also returns the
heap fragment it allocated. -/
def GetContacts (userNumber : String) : List (String × Nat) × List (Nat × Contact) :=
  ([(userNumber, 0)], [(0, { Number := userNumber, Name := "me" })])

/-- Go: `func GetConversations(userNumber string, contacts map[string]*Contact)` —
creates one fresh conversation per contact. -/
def GetConversations (contacts : List (String × Nat)) : List (Nat × Conversation) :=
  contacts.foldl (fun acc pr => insertA acc pr.2 (NewConversation pr.2)) []

/-- Go: `func NewSiggo(sig SignalAPI, config *Config) *Siggo`.  Registering
the `onReceived`/`onReceipt` callbacks with the transport has no effect on
the model state, so the transport does not appear here. -/
def NewSiggo (config : Config) : Siggo :=
  let init := GetContacts config.UserNumber
  { config := config
    contacts := init.1
    heap := init.2
    conversations := GetConversations init.1
    nextPtr := 1 }

/-! ## Properties of `Conversation.AddMessage` -/

theorem AddMessage_Messages (c : Conversation) (m : Message) :
    (c.AddMessage m).Messages = insertA c.Messages m.Timestamp m := by
  by_cases h : (lookupA c.Messages m.Timestamp).isSome <;>
    simp [Conversation.AddMessage, h]

theorem AddMessage_MessageOrder (c : Conversation) (m : Message) :
    (c.AddMessage m).MessageOrder =
      if (lookupA c.Messages m.Timestamp).isSome then c.MessageOrder
      else c.MessageOrder ++ [m.Timestamp] := by
  by_cases h : (lookupA c.Messages m.Timestamp).isSome <;>
    simp [Conversation.AddMessage, h]

theorem AddMessage_HasNewMessage (c : Conversation) (m : Message) :
    (c.AddMessage m).HasNewMessage =
      if (lookupA c.Messages m.Timestamp).isSome then c.HasNewMessage else true := by
  by_cases h : (lookupA c.Messages m.Timestamp).isSome <;>
    simp [Conversation.AddMessage, h]

theorem AddMessage_Contact (c : Conversation) (m : Message) :
    (c.AddMessage m).Contact = c.Contact := by
  by_cases h : (lookupA c.Messages m.Timestamp).isSome <;>
    simp [Conversation.AddMessage, h]

theorem lookupA_AddMessage_self (c : Conversation) (m : Message) :
    lookupA (c.AddMessage m).Messages m.Timestamp = some m := by
  rw [AddMessage_Messages]
  exact lookupA_insertA_self _ _ _

theorem lookupA_AddMessage_ne (c : Conversation) (m : Message) (k : Int)
    (h : k ≠ m.Timestamp) :
    lookupA (c.AddMessage m).Messages k = lookupA c.Messages k := by
  rw [AddMessage_Messages]
  exact lookupA_insertA_ne _ _ _ _ h

/-- C1: `AddMessage(m)` stores `m` under `m.Timestamp`, touching no other
key; when the timestamp was absent it appends the timestamp to
`MessageOrder` and sets `HasNewMessage`, and when it was present it
replaces the stored message wholesale and leaves both `MessageOrder` and
`HasNewMessage` unchanged. -/
theorem addMessage_spec (c : Conversation) (m : Message) :
    lookupA (c.AddMessage m).Messages m.Timestamp = some m ∧
    (∀ k, k ≠ m.Timestamp →
      lookupA (c.AddMessage m).Messages k = lookupA c.Messages k) ∧
    (lookupA c.Messages m.Timestamp = none →
      (c.AddMessage m).MessageOrder = c.MessageOrder ++ [m.Timestamp] ∧
      (c.AddMessage m).HasNewMessage = true) ∧
    (∀ old, lookupA c.Messages m.Timestamp = some old →
      (c.AddMessage m).MessageOrder = c.MessageOrder ∧
      (c.AddMessage m).HasNewMessage = c.HasNewMessage) := by
  refine ⟨lookupA_AddMessage_self c m, fun k hk => lookupA_AddMessage_ne c m k hk, ?_, ?_⟩
  · intro hnone
    rw [AddMessage_MessageOrder, AddMessage_HasNewMessage, hnone]
    simp
  · intro old hsome
    rw [AddMessage_MessageOrder, AddMessage_HasNewMessage, hsome]
    simp

/-- C1 witness: a concrete run of both branches of `AddMessage`. -/
theorem addMessage_spec_witness :
    (Conversation.AddMessage (NewConversation 0)
        { Content := "hi", From := "a", Timestamp := 100,
          IsDelivered := true, IsRead := false }).MessageOrder = [100] ∧
    (Conversation.AddMessage
        (Conversation.AddMessage (NewConversation 0)
          { Content := "hi", From := "a", Timestamp := 100,
            IsDelivered := true, IsRead := false })
        { Content := "bye", From := "a", Timestamp := 100,
          IsDelivered := true, IsRead := true }).MessageOrder = [100] := by
  constructor
  · exact ((addMessage_spec (NewConversation 0)
      { Content := "hi", From := "a", Timestamp := 100,
        IsDelivered := true, IsRead := false }).2.2.1 rfl).1
  · refine ((addMessage_spec
      (Conversation.AddMessage (NewConversation 0)
        { Content := "hi", From := "a", Timestamp := 100,
          IsDelivered := true, IsRead := false })
      { Content := "bye", From := "a", Timestamp := 100,
        IsDelivered := true, IsRead := true }).2.2.2
      { Content := "hi", From := "a", Timestamp := 100,
        IsDelivered := true, IsRead := false } (by decide)).1.trans ?_
    decide

/-! ## The `MessageOrder` invariant under sequences of `AddMessage` calls -/

/-- A finite sequence of `AddMessage` calls applied to a conversation. -/
def addAll (c : Conversation) (ms : List Message) : Conversation :=
  ms.foldl Conversation.AddMessage c

/-- The timestamps of a sequence of inserted messages, in insertion order. -/
def insertedTimestamps (ms : List Message) : List Int :=
  ms.map fun m => m.Timestamp

@[simp]
theorem insertedTimestamps_nil : insertedTimestamps [] = [] := rfl

@[simp]
theorem insertedTimestamps_cons (m : Message) (ms : List Message) :
    insertedTimestamps (m :: ms) = m.Timestamp :: insertedTimestamps ms := rfl

/-- The first occurrence of each value in a list, skipping values already
seen: the order in which a stream of timestamps is first inserted. -/
def firstOccurrences : List Int → List Int → List Int
  | _, [] => []
  | seen, t :: ts =>
      if t ∈ seen then firstOccurrences seen ts
      else t :: firstOccurrences (t :: seen) ts

/-- `order` lists exactly the keys of `messages`. -/
def convInvariant (c : Conversation) : Prop :=
  ∀ k, k ∈ c.MessageOrder ↔ (lookupA c.Messages k).isSome

theorem isSome_lookupA_AddMessage (c : Conversation) (m : Message) (k : Int) :
    (lookupA (c.AddMessage m).Messages k).isSome
      ↔ (k = m.Timestamp ∨ (lookupA c.Messages k).isSome) := by
  by_cases hk : k = m.Timestamp
  · subst hk
    simp [lookupA_AddMessage_self]
  · rw [lookupA_AddMessage_ne c m k hk]
    simp [hk]

theorem convInvariant_AddMessage (c : Conversation) (m : Message)
    (h : convInvariant c) : convInvariant (c.AddMessage m) := by
  intro k
  rw [isSome_lookupA_AddMessage, AddMessage_MessageOrder]
  by_cases hp : (lookupA c.Messages m.Timestamp).isSome
  · simp only [hp, if_true]
    rw [h k]
    constructor
    · exact Or.inr
    · rintro (rfl | hk)
      · exact hp
      · exact hk
  · simp only [hp, Bool.false_eq_true, if_false, List.mem_append, List.mem_singleton]
    rw [h k]
    tauto

theorem convInvariant_addAll (ms : List Message) :
    ∀ c, convInvariant c → convInvariant (addAll c ms) := by
  induction ms with
  | nil => intro c h; exact h
  | cons m ms ih => intro c h; exact ih _ (convInvariant_AddMessage c m h)

theorem firstOccurrences_congr (l : List Int) : ∀ seen₁ seen₂ : List Int,
    (∀ x, x ∈ seen₁ ↔ x ∈ seen₂) →
    firstOccurrences seen₁ l = firstOccurrences seen₂ l := by
  induction l with
  | nil => intro s1 s2 _; rfl
  | cons t ts ih =>
    intro s1 s2 h
    simp only [firstOccurrences]
    by_cases ht : t ∈ s1
    · rw [if_pos ht, if_pos ((h t).1 ht)]
      exact ih s1 s2 h
    · have ht2 : t ∉ s2 := fun hx => ht ((h t).2 hx)
      rw [if_neg ht, if_neg ht2]
      congr 1
      refine ih _ _ fun x => ?_
      simp [List.mem_cons, h x]

theorem mem_firstOccurrences (l : List Int) : ∀ (seen : List Int) (k : Int),
    k ∈ firstOccurrences seen l ↔ k ∈ l ∧ k ∉ seen := by
  induction l with
  | nil => intro seen k; simp [firstOccurrences]
  | cons t ts ih =>
    intro seen k
    simp only [firstOccurrences]
    by_cases ht : t ∈ seen
    · rw [if_pos ht, ih seen k]
      simp only [List.mem_cons]
      constructor
      · rintro ⟨hk, hn⟩
        exact ⟨Or.inr hk, hn⟩
      · rintro ⟨hk, hn⟩
        rcases hk with rfl | hk'
        · exact absurd ht hn
        · exact ⟨hk', hn⟩
    · rw [if_neg ht]
      simp only [List.mem_cons, ih (t :: seen) k, List.mem_cons]
      by_cases hkt : k = t
      · subst hkt
        simp [ht]
      · simp [hkt]

theorem nodup_firstOccurrences (l : List Int) :
    ∀ seen : List Int, (firstOccurrences seen l).Nodup := by
  induction l with
  | nil => intro seen; simp [firstOccurrences]
  | cons t ts ih =>
    intro seen
    simp only [firstOccurrences]
    by_cases ht : t ∈ seen
    · rw [if_pos ht]
      exact ih seen
    · rw [if_neg ht]
      refine List.nodup_cons.2 ⟨?_, ih _⟩
      rw [mem_firstOccurrences]
      rintro ⟨-, hn⟩
      exact hn (List.mem_cons_self _ _)

theorem length_firstOccurrences (l : List Int) :
    (firstOccurrences [] l).length = l.toFinset.card := by
  have hfin : (firstOccurrences [] l).toFinset = l.toFinset := by
    ext x
    simp [List.mem_toFinset, mem_firstOccurrences]
  have hlen := List.toFinset_card_of_nodup (nodup_firstOccurrences l [])
  rw [hfin] at hlen
  exact hlen.symm

theorem addAll_MessageOrder (ms : List Message) : ∀ c : Conversation, convInvariant c →
    (addAll c ms).MessageOrder =
      c.MessageOrder ++ firstOccurrences c.MessageOrder (insertedTimestamps ms) := by
  induction ms with
  | nil =>
    intro c _
    simp [addAll, firstOccurrences]
  | cons m ms ih =>
    intro c h
    have hstep : addAll c (m :: ms) = addAll (c.AddMessage m) ms := rfl
    rw [hstep, ih _ (convInvariant_AddMessage c m h)]
    simp only [insertedTimestamps_cons, firstOccurrences]
    by_cases hp : (lookupA c.Messages m.Timestamp).isSome
    · have hmem : m.Timestamp ∈ c.MessageOrder := (h _).2 hp
      rw [if_pos hmem, AddMessage_MessageOrder]
      simp [hp, insertedTimestamps]
    · have hmem : m.Timestamp ∉ c.MessageOrder := fun hx => hp ((h _).1 hx)
      rw [if_neg hmem, AddMessage_MessageOrder]
      simp only [hp, Bool.false_eq_true, if_false]
      rw [firstOccurrences_congr (insertedTimestamps ms)
        (c.MessageOrder ++ [m.Timestamp]) (m.Timestamp :: c.MessageOrder)
        (fun x => by simp [List.mem_append, List.mem_cons, or_comm])]
      simp [insertedTimestamps]

/-- C2: starting from an empty conversation, after any finite sequence of
`AddMessage` calls `MessageOrder` has no duplicates, lists exactly the keys
of `Messages`, equals the first-insertion order of the inserted timestamps
(not their sorted order), and its length is the number of distinct
timestamps inserted. -/
theorem addAll_order_spec (contact : Nat) (ms : List Message) :
    ((addAll (NewConversation contact) ms).MessageOrder).Nodup ∧
    (∀ k, k ∈ (addAll (NewConversation contact) ms).MessageOrder ↔
      (lookupA (addAll (NewConversation contact) ms).Messages k).isSome) ∧
    (addAll (NewConversation contact) ms).MessageOrder
      = firstOccurrences [] (insertedTimestamps ms) ∧
    ((addAll (NewConversation contact) ms).MessageOrder).length
      = (insertedTimestamps ms).toFinset.card := by
  have hinv : convInvariant (NewConversation contact) := by
    intro k
    simp [NewConversation, lookupA]
  have horder := addAll_MessageOrder ms (NewConversation contact) hinv
  have horder' : (addAll (NewConversation contact) ms).MessageOrder
      = firstOccurrences [] (insertedTimestamps ms) := by
    simpa [NewConversation] using horder
  refine ⟨?_, convInvariant_addAll ms (NewConversation contact) hinv, horder', ?_⟩
  · rw [horder']
    exact nodup_firstOccurrences _ _
  · rw [horder']
    exact length_firstOccurrences _

/-! ## Rendering -/

theorem string_append_assoc (a b c : String) : a ++ b ++ c = a ++ (b ++ c) := by
  apply String.ext
  simp [String.data_append]

/-- The line form the spec prescribes for one message:
`timestamp|<deliveryGlyph><readGlyph> from: content` followed by a newline,
with `<` / `?` as the delivery glyph and `>` / `?` as the read glyph. -/
def lineForm (m : Message) : String :=
  toString m.Timestamp ++ "|" ++ (if m.IsDelivered then "<" else "?")
    ++ (if m.IsRead then ">" else "?") ++ " " ++ m.From ++ ": " ++ m.Content ++ "\n"

/-- The concatenation, following the given key order, of the line forms of
the stored messages. -/
def renderSpec (c : Conversation) : List Int → String
  | [] => ""
  | k :: ks => lineForm ((lookupA c.Messages k).getD default) ++ renderSpec c ks

/-- The source's per-message renderer agrees with the spec's line form:
`DeliveryStatus`/`ReadStatus` are exactly the glyph tables the spec names. -/
theorem Message_string_eq_lineForm (m : Message) : m.string = lineForm m := rfl

theorem foldl_append_lineForm (c : Conversation) (ks : List Int) : ∀ a : String,
    ks.foldl (fun out k => out ++ ((lookupA c.Messages k).getD default).string) a
      = a ++ renderSpec c ks := by
  induction ks with
  | nil =>
    intro a
    simp only [List.foldl_nil, renderSpec]
    exact (String.append_empty a).symm
  | cons k ks ih =>
    intro a
    simp only [List.foldl_cons, renderSpec]
    rw [ih, string_append_assoc]
    rfl

/-- C7: a conversation renders as the concatenation, following
`MessageOrder`, of each stored message's line form
`timestamp|<deliveryGlyph><readGlyph> from: content` (newline-terminated),
with `<`/`?` for the delivery glyph and `>`/`?` for the read glyph. -/
theorem conversation_string_spec (c : Conversation) :
    c.string = renderSpec c c.MessageOrder := by
  unfold Conversation.string
  rw [foldl_append_lineForm]
  exact String.empty_append _

/-! ## The receipt path -/

@[simp]
theorem updFlags_updFlags (d r : Bool) (m : Message) :
    updFlags d r (updFlags d r m) = updFlags d r m := rfl

@[simp]
theorem updFlags_Content (d r : Bool) (m : Message) :
    (updFlags d r m).Content = m.Content := rfl

@[simp]
theorem updFlags_From (d r : Bool) (m : Message) :
    (updFlags d r m).From = m.From := rfl

@[simp]
theorem updFlags_Timestamp (d r : Bool) (m : Message) :
    (updFlags d r m).Timestamp = m.Timestamp := rfl

/-- Pointwise characterisation of the receipt loop: a key is updated with
the receipt's flags exactly when it occurs in the timestamp list and was
present in the map; all other keys are untouched. -/
theorem lookupA_updateReceipt (d r : Bool) (tss : List Int) :
    ∀ (msgs : List (Int × Message)) (k : Int),
    lookupA (updateReceipt d r msgs tss) k =
      (lookupA msgs k).map fun m => if k ∈ tss then updFlags d r m else m := by
  induction tss with
  | nil =>
    intro msgs k
    simp only [updateReceipt, List.foldl_nil, List.not_mem_nil, if_false]
    cases lookupA msgs k <;> simp
  | cons t ts ih =>
    intro msgs k
    have hstep : updateReceipt d r msgs (t :: ts)
        = updateReceipt d r
            (match lookupA msgs t with
              | none => msgs
              | some m => insertA msgs t (updFlags d r m)) ts := rfl
    rw [hstep]
    cases hmt : lookupA msgs t with
    | none =>
      rw [ih]
      by_cases hkt : k = t
      · subst hkt
        rw [hmt]
        simp
      · simp [List.mem_cons, hkt]
    | some m =>
      rw [ih]
      by_cases hkt : k = t
      · subst hkt
        rw [lookupA_insertA_self, hmt]
        simp only [Option.map_some, List.mem_cons, true_or, if_pos, Option.some.injEq]
        by_cases hk : k ∈ ts <;> simp [hk]
      · rw [lookupA_insertA_ne _ _ _ _ hkt]
        simp [List.mem_cons, hkt]

/-- A Go allocator never hands out a pointer that is already a key of the
conversation registry. -/
theorem lookupA_conversations_nextPtr (s : Siggo) (h : s.wf) :
    lookupA s.conversations s.nextPtr = none := by
  cases hc : lookupA s.conversations s.nextPtr with
  | none => rfl
  | some conv => exact absurd (h.2.1 _ (lookupA_some_mem hc)) (lt_irrefl _)

/-- `onReceipt` never notifies and always returns the `nil` error. -/
theorem onReceipt_pure (s : Siggo) (e : ReceiptEvent) :
    (s.onReceipt e).2 = ([], none) := rfl

/-- Shape of the state after `onReceipt`: some contact pointer `p` is
resolved for the source, and the conversation registry is the old one with
the conversation at `p` (the empty conversation when `p` had none)
rewritten through the receipt loop. -/
theorem onReceipt_state (s : Siggo) (e : ReceiptEvent) (h : s.wf) :
    ∃ p, lookupA (s.onReceipt e).1.contacts e.Source = some p ∧
      (s.onReceipt e).1.conversations =
        insertA s.conversations p
          { (lookupA s.conversations p).getD (NewConversation p) with
            Messages := updateReceipt e.IsDelivery e.IsRead
              ((lookupA s.conversations p).getD (NewConversation p)).Messages
              e.Timestamps } := by
  cases hc : lookupA s.contacts e.Source with
  | some p =>
    refine ⟨p, ?_, ?_⟩
    · cases hv : lookupA s.conversations p with
      | some conv => simp [Siggo.onReceipt, hc, hv]
      | none => simp [Siggo.onReceipt, hc, hv, Siggo.newConversation]
    · cases hv : lookupA s.conversations p with
      | some conv => simp [Siggo.onReceipt, hc, hv]
      | none =>
        simp [Siggo.onReceipt, hc, hv, Siggo.newConversation, insertA_insertA_same,
          NewConversation]
  | none =>
    refine ⟨s.nextPtr, ?_, ?_⟩
    · have hfresh : lookupA s.conversations s.nextPtr = none :=
        lookupA_conversations_nextPtr s h
      simp [Siggo.onReceipt, hc, Siggo.newContact, Siggo.newConversation, hfresh,
        lookupA_insertA_self]
    · have hfresh : lookupA s.conversations s.nextPtr = none :=
        lookupA_conversations_nextPtr s h
      simp [Siggo.onReceipt, hc, Siggo.newContact, Siggo.newConversation, hfresh,
        insertA_insertA_same, NewConversation]

/-- C3: a receipt event mutates only the `IsDelivered`/`IsRead` fields of
the messages whose timestamps are both named by the receipt and present in
the resolved conversation: every stored conversation keeps its contact,
`MessageOrder`, `HasNewMessage` and message keys; every message keeps its
`Content`, `From` and `Timestamp`; messages not named in the receipt are
untouched; and the notification callback is never invoked. -/
theorem onReceipt_frame (s : Siggo) (e : ReceiptEvent) (h : s.wf) :
    (s.onReceipt e).2.1 = [] ∧
    ∀ p conv conv', lookupA s.conversations p = some conv →
      lookupA (s.onReceipt e).1.conversations p = some conv' →
      conv'.Contact = conv.Contact ∧
      conv'.MessageOrder = conv.MessageOrder ∧
      conv'.HasNewMessage = conv.HasNewMessage ∧
      (∀ k, (lookupA conv'.Messages k).isSome = (lookupA conv.Messages k).isSome) ∧
      (∀ k m m', lookupA conv.Messages k = some m →
        lookupA conv'.Messages k = some m' →
        m'.Content = m.Content ∧ m'.From = m.From ∧ m'.Timestamp = m.Timestamp ∧
        (k ∉ e.Timestamps → m' = m)) := by
  obtain ⟨p0, hp0, hconvs⟩ := onReceipt_state s e h
  refine ⟨rfl, ?_⟩
  intro p conv conv' hbefore hafter
  rw [hconvs] at hafter
  by_cases hpp : p = p0
  · subst hpp
    rw [lookupA_insertA_self, hbefore] at hafter
    simp only [Option.getD_some, Option.some.injEq] at hafter
    subst hafter
    refine ⟨rfl, rfl, rfl, ?_, ?_⟩
    · intro k
      simp only [lookupA_updateReceipt]
      cases lookupA conv.Messages k <;> simp
    · intro k m m' hm hm'
      simp only [lookupA_updateReceipt, hm, Option.map_some', Option.some.injEq] at hm'
      subst hm'
      by_cases hk : k ∈ e.Timestamps
      · rw [if_pos hk]
        exact ⟨rfl, rfl, rfl, fun hcontra => absurd hk hcontra⟩
      · rw [if_neg hk]
        exact ⟨rfl, rfl, rfl, fun _ => rfl⟩
  · rw [lookupA_insertA_ne _ _ _ _ hpp, hbefore] at hafter
    obtain rfl := Option.some.inj hafter
    refine ⟨rfl, rfl, rfl, fun k => rfl, ?_⟩
    intro k m m' hm hm'
    obtain rfl := Option.some.inj (hm.symm.trans hm')
    exact ⟨rfl, rfl, rfl, fun _ => rfl⟩

/-- C3 witness: a concrete receipt run invokes no notification callback. -/
theorem onReceipt_frame_witness :
    ((NewSiggo { UserName := "me", UserNumber := "+1" }).onReceipt
      { Source := "+2", IsDelivery := true, IsRead := true,
        Timestamps := [100] }).2.1 = [] :=
  (onReceipt_frame (NewSiggo { UserName := "me", UserNumber := "+1" })
    { Source := "+2", IsDelivery := true, IsRead := true, Timestamps := [100] }
    (by decide)).1

/-- C4: a receipt naming a timestamp with no message in the resolved
conversation skips it — the key stays absent, `MessageOrder` is unchanged
and `onReceipt` still returns the `nil` error. -/
theorem onReceipt_skips_absent (s : Siggo) (e : ReceiptEvent) (h : s.wf) :
    (s.onReceipt e).2.2 = none ∧
    ∀ p conv conv', lookupA s.conversations p = some conv →
      lookupA (s.onReceipt e).1.conversations p = some conv' →
      ∀ ts, lookupA conv.Messages ts = none →
        lookupA conv'.Messages ts = none ∧
        conv'.MessageOrder = conv.MessageOrder := by
  obtain ⟨p0, hp0, hconvs⟩ := onReceipt_state s e h
  refine ⟨rfl, ?_⟩
  intro p conv conv' hbefore hafter ts hts
  rw [hconvs] at hafter
  by_cases hpp : p = p0
  · subst hpp
    rw [lookupA_insertA_self, hbefore] at hafter
    simp only [Option.getD_some, Option.some.injEq] at hafter
    subst hafter
    refine ⟨?_, rfl⟩
    simp [lookupA_updateReceipt, hts]
  · rw [lookupA_insertA_ne _ _ _ _ hpp, hbefore] at hafter
    obtain rfl := Option.some.inj hafter
    exact ⟨hts, rfl⟩

/-- C4 witness: a receipt for the unknown timestamp 999 leaves the "me"
conversation untouched and returns no error. -/
theorem onReceipt_skips_absent_witness :
    ((NewSiggo { UserName := "me", UserNumber := "+1" }).onReceipt
      { Source := "+1", IsDelivery := true, IsRead := true,
        Timestamps := [999] }).2.2 = none ∧
    lookupA (NewConversation 0).Messages 999 = none ∧
    (NewConversation 0).MessageOrder = (NewConversation 0).MessageOrder :=
  ⟨(onReceipt_skips_absent (NewSiggo { UserName := "me", UserNumber := "+1" })
      { Source := "+1", IsDelivery := true, IsRead := true, Timestamps := [999] }
      (by decide)).1,
   (onReceipt_skips_absent (NewSiggo { UserName := "me", UserNumber := "+1" })
      { Source := "+1", IsDelivery := true, IsRead := true, Timestamps := [999] }
      (by decide)).2 0 (NewConversation 0) (NewConversation 0)
      (by decide) (by decide) 999 rfl⟩

/-- A concrete state holding one already-delivered, already-read message,
used to demonstrate that receipts overwrite status flags unconditionally. -/
def receiptDemoState : Siggo :=
  { config := { UserName := "me", UserNumber := "+1" }
    contacts := [("+1", 0), ("+2", 1)]
    heap := [(0, { Number := "+1", Name := "me" }), (1, { Number := "+2", Name := "bob" })]
    conversations :=
      [(0, NewConversation 0),
       (1, { Contact := 1
             Messages := [(100, { Content := "hi", From := "bob", Timestamp := 100,
                                  IsDelivered := true, IsRead := true })]
             MessageOrder := [100]
             HasNewMessage := true })]
    nextPtr := 2 }

/-- C9: for every referenced message present in the resolved conversation,
`onReceipt` overwrites `IsDelivered` and `IsRead` with exactly the
receipt's flags, unconditionally — a `false` flag downgrades a previously
`true` status. -/
theorem onReceipt_sets_flags (s : Siggo) (e : ReceiptEvent) (h : s.wf) :
    ∀ p conv ts m,
      lookupA (s.onReceipt e).1.contacts e.Source = some p →
      lookupA s.conversations p = some conv →
      ts ∈ e.Timestamps →
      lookupA conv.Messages ts = some m →
      ∃ conv', lookupA (s.onReceipt e).1.conversations p = some conv' ∧
        lookupA conv'.Messages ts
          = some { m with IsDelivered := e.IsDelivery, IsRead := e.IsRead } := by
  obtain ⟨p0, hp0, hconvs⟩ := onReceipt_state s e h
  intro p conv ts m hp hbefore hmem hm
  obtain rfl := Option.some.inj (hp0.symm.trans hp)
  rw [hconvs, lookupA_insertA_self]
  refine ⟨_, rfl, ?_⟩
  rw [hbefore]
  simp only [Option.getD_some, lookupA_updateReceipt, hm, Option.map_some']
  rw [if_pos hmem]
  rfl

/-- C9 witness: a receipt carrying `false` flags downgrades a message that
was already marked delivered and read. -/
theorem onReceipt_sets_flags_witness :
    ∃ conv', lookupA ((receiptDemoState.onReceipt
        { Source := "+2", IsDelivery := false, IsRead := false,
          Timestamps := [100] }).1.conversations) 1 = some conv' ∧
      lookupA conv'.Messages 100
        = some { Content := "hi", From := "bob", Timestamp := 100,
                 IsDelivered := false, IsRead := false } :=
  onReceipt_sets_flags receiptDemoState
    { Source := "+2", IsDelivery := false, IsRead := false, Timestamps := [100] }
    (by decide) 1
    { Contact := 1
      Messages := [(100, { Content := "hi", From := "bob", Timestamp := 100,
                           IsDelivered := true, IsRead := true })]
      MessageOrder := [100]
      HasNewMessage := true }
    100
    { Content := "hi", From := "bob", Timestamp := 100,
      IsDelivered := true, IsRead := true }
    (by decide) (by decide) (by decide) (by decide)

/-! ## The receive path -/

/-- C5: a received message from an unknown identifier registers exactly one
new contact — keyed by the identifier, with empty name — and exactly one
new conversation, owned by that contact; every other entry of either
registry is untouched. -/
theorem onReceived_new_contact (s : Siggo) (e : ReceivedEvent) (h : s.wf)
    (habs : lookupA s.contacts e.Source = none) :
    lookupA (s.onReceived e).1.contacts e.Source = some s.nextPtr ∧
    lookupA (s.onReceived e).1.heap s.nextPtr
      = some { Number := e.Source, Name := "" } ∧
    (∀ n, n ≠ e.Source →
      lookupA (s.onReceived e).1.contacts n = lookupA s.contacts n) ∧
    lookupA s.conversations s.nextPtr = none ∧
    (∃ conv, lookupA (s.onReceived e).1.conversations s.nextPtr = some conv ∧
      conv.Contact = s.nextPtr) ∧
    (∀ q, q ≠ s.nextPtr →
      lookupA (s.onReceived e).1.conversations q = lookupA s.conversations q) := by
  have hfresh : lookupA s.conversations s.nextPtr = none :=
    lookupA_conversations_nextPtr s h
  refine ⟨?_, ?_, ?_, hfresh, ?_, ?_⟩
  · simp [Siggo.onReceived, habs, hfresh, Siggo.newConversation, lookupA_insertA_self]
  · simp [Siggo.onReceived, habs, hfresh, Siggo.newConversation, lookupA_insertA_self]
  · intro n hn
    simp only [Siggo.onReceived, habs, hfresh, Siggo.newConversation]
    exact lookupA_insertA_ne _ _ _ _ hn
  · refine ⟨(NewConversation s.nextPtr).AddMessage
      { Content := e.MessageText, From := e.Source, Timestamp := e.Timestamp,
        IsDelivered := true, IsRead := false }, ?_, ?_⟩
    · simp [Siggo.onReceived, habs, hfresh, Siggo.newConversation,
        insertA_insertA_same, lookupA_insertA_self]
    · rw [AddMessage_Contact]
      rfl
  · intro q hq
    simp only [Siggo.onReceived, habs, hfresh, Siggo.newConversation]
    rw [insertA_insertA_same]
    exact lookupA_insertA_ne _ _ _ _ hq

/-- C5 witness: receiving from the unknown number "+2" on a fresh state. -/
theorem onReceived_new_contact_witness :
    lookupA ((NewSiggo { UserName := "me", UserNumber := "+1" }).onReceived
      { Source := "+2", MessageText := "hi", Timestamp := 100 }).1.contacts "+2"
      = some 1 :=
  (onReceived_new_contact (NewSiggo { UserName := "me", UserNumber := "+1" })
    { Source := "+2", MessageText := "hi", Timestamp := 100 }
    (by decide) (by decide)).1

/-- C6: `onReceived` stores a message carrying the payload text and
timestamp, marked delivered but not read, whose `From` is the contact's
name when one is on file and the raw identifier otherwise; it hands
exactly that conversation to the notification callback and returns the
`nil` error. -/
theorem onReceived_message_spec (s : Siggo) (e : ReceivedEvent) :
    (s.onReceived e).2.2 = none ∧
    ∃ p conv', lookupA (s.onReceived e).1.contacts e.Source = some p ∧
      lookupA (s.onReceived e).1.conversations p = some conv' ∧
      (s.onReceived e).2.1 = [conv'] ∧
      ∃ msg, lookupA conv'.Messages e.Timestamp = some msg ∧
        msg.Content = e.MessageText ∧
        msg.Timestamp = e.Timestamp ∧
        msg.IsDelivered = true ∧
        msg.IsRead = false ∧
        (lookupA s.contacts e.Source = none → msg.From = e.Source) ∧
        (∀ q c, lookupA s.contacts e.Source = some q → lookupA s.heap q = some c →
          msg.From = if c.Name = "" then e.Source else c.Name) := by
  refine ⟨rfl, ?_⟩
  cases hc : lookupA s.contacts e.Source with
  | none =>
    cases hv : lookupA s.conversations s.nextPtr with
    | none =>
      refine ⟨s.nextPtr,
        (NewConversation s.nextPtr).AddMessage
          { Content := e.MessageText, From := e.Source, Timestamp := e.Timestamp,
            IsDelivered := true, IsRead := false }, ?_, ?_, ?_, ?_⟩
      · simp [Siggo.onReceived, hc, hv, Siggo.newConversation, lookupA_insertA_self]
      · simp [Siggo.onReceived, hc, hv, Siggo.newConversation, insertA_insertA_same,
          lookupA_insertA_self]
      · simp [Siggo.onReceived, hc, hv, Siggo.newConversation]
      · refine ⟨_, lookupA_AddMessage_self _ _, rfl, rfl, rfl, rfl, fun _ => rfl, ?_⟩
        intro q c hq _
        exact Option.noConfusion hq
    | some conv0 =>
      refine ⟨s.nextPtr, conv0.AddMessage
          { Content := e.MessageText, From := e.Source, Timestamp := e.Timestamp,
            IsDelivered := true, IsRead := false }, ?_, ?_, ?_, ?_⟩
      · simp [Siggo.onReceived, hc, hv, lookupA_insertA_self]
      · simp [Siggo.onReceived, hc, hv, lookupA_insertA_self]
      · simp [Siggo.onReceived, hc, hv]
      · refine ⟨_, lookupA_AddMessage_self _ _, rfl, rfl, rfl, rfl, fun _ => rfl, ?_⟩
        intro q c hq _
        exact Option.noConfusion hq
  | some q =>
    cases hh : lookupA s.heap q with
    | none =>
      cases hv : lookupA s.conversations q with
      | none =>
        refine ⟨q, (NewConversation q).AddMessage
            { Content := e.MessageText, From := e.Source, Timestamp := e.Timestamp,
              IsDelivered := true, IsRead := false }, ?_, ?_, ?_, ?_⟩
        · simp [Siggo.onReceived, hc, hh, hv, Siggo.newConversation]
        · simp [Siggo.onReceived, hc, hh, hv, Siggo.newConversation,
            insertA_insertA_same, lookupA_insertA_self]
        · simp [Siggo.onReceived, hc, hh, hv, Siggo.newConversation]
        · refine ⟨_, lookupA_AddMessage_self _ _, rfl, rfl, rfl, rfl,
            fun hn => Option.noConfusion hn, ?_⟩
          intro q' c hq hc'
          obtain rfl := Option.some.inj hq
          exact Option.noConfusion (hh.symm.trans hc')
      | some conv0 =>
        refine ⟨q, conv0.AddMessage
            { Content := e.MessageText, From := e.Source, Timestamp := e.Timestamp,
              IsDelivered := true, IsRead := false }, ?_, ?_, ?_, ?_⟩
        · simp [Siggo.onReceived, hc, hh, hv]
        · simp [Siggo.onReceived, hc, hh, hv, lookupA_insertA_self]
        · simp [Siggo.onReceived, hc, hh, hv]
        · refine ⟨_, lookupA_AddMessage_self _ _, rfl, rfl, rfl, rfl,
            fun hn => Option.noConfusion hn, ?_⟩
          intro q' c hq hc'
          obtain rfl := Option.some.inj hq
          exact Option.noConfusion (hh.symm.trans hc')
    | some ct =>
      cases hv : lookupA s.conversations q with
      | none =>
        refine ⟨q, (NewConversation q).AddMessage
            { Content := e.MessageText,
              From := if ct.Name = "" then e.Source else ct.Name,
              Timestamp := e.Timestamp, IsDelivered := true, IsRead := false },
            ?_, ?_, ?_, ?_⟩
        · simp [Siggo.onReceived, hc, hh, hv, Siggo.newConversation]
        · simp [Siggo.onReceived, hc, hh, hv, Siggo.newConversation,
            insertA_insertA_same, lookupA_insertA_self]
        · simp [Siggo.onReceived, hc, hh, hv, Siggo.newConversation]
        · refine ⟨_, lookupA_AddMessage_self _ _, rfl, rfl, rfl, rfl,
            fun hn => Option.noConfusion hn, ?_⟩
          intro q' c hq hc'
          obtain rfl := Option.some.inj hq
          obtain rfl := Option.some.inj (hh.symm.trans hc')
          rfl
      | some conv0 =>
        refine ⟨q, conv0.AddMessage
            { Content := e.MessageText,
              From := if ct.Name = "" then e.Source else ct.Name,
              Timestamp := e.Timestamp, IsDelivered := true, IsRead := false },
            ?_, ?_, ?_, ?_⟩
        · simp [Siggo.onReceived, hc, hh, hv]
        · simp [Siggo.onReceived, hc, hh, hv, lookupA_insertA_self]
        · simp [Siggo.onReceived, hc, hh, hv]
        · refine ⟨_, lookupA_AddMessage_self _ _, rfl, rfl, rfl, rfl,
            fun hn => Option.noConfusion hn, ?_⟩
          intro q' c hq hc'
          obtain rfl := Option.some.inj hq
          obtain rfl := Option.some.inj (hh.symm.trans hc')
          rfl

/-- C6 witness: the example from the spec — receiving
`{from: "+1555", text: "hi", ts: 100}` on a fresh state. -/
theorem onReceived_message_spec_witness :
    ((NewSiggo { UserName := "me", UserNumber := "+1" }).onReceived
      { Source := "+1555", MessageText := "hi", Timestamp := 100 }).2.2 = none :=
  (onReceived_message_spec (NewSiggo { UserName := "me", UserNumber := "+1" })
    { Source := "+1555", MessageText := "hi", Timestamp := 100 }).1

/-! ## The send path -/

/-- C8 counterexample: after a failed send the conversation does NOT
contain the locally constructed pending message — `onSend` is a no-op, so
the message is never stored.  On a fresh state a failing `Send` returns
the transport error, yet the contact's conversation is still the empty
conversation. -/
theorem send_failure_counterexample :
    ((NewSiggo { UserName := "alice", UserNumber := "+1" }).Send "hello" 0
      (some "boom")).2 = some "boom" ∧
    ((NewSiggo { UserName := "alice", UserNumber := "+1" }).Send "hello" 0
      (some "boom")).1.conversations = [(0, NewConversation 0)] :=
  ⟨rfl, by decide⟩

/-- C8 amended: a failing transport send propagates its error to the
caller unchanged, and the model keeps only the optimistic effects that
actually happen: the registries are untouched and the conversation for
the contact is exactly what it was before (created empty when absent) —
the pending message is constructed but never stored, because the pre-send
hook `onSend` is a no-op. -/
theorem send_failure_amended (s : Siggo) (msg : String) (contact : Nat) (err : String) :
    (s.Send msg contact (some err)).2 = some err ∧
    (s.Send msg contact (some err)).1.contacts = s.contacts ∧
    (s.Send msg contact (some err)).1.heap = s.heap ∧
    (∀ conv, lookupA s.conversations contact = some conv →
      (s.Send msg contact (some err)).1.conversations = s.conversations) ∧
    (lookupA s.conversations contact = none →
      (s.Send msg contact (some err)).1.conversations
        = insertA s.conversations contact (NewConversation contact)) := by
  cases hv : lookupA s.conversations contact with
  | some conv =>
    refine ⟨rfl, ?_, ?_, ?_, ?_⟩
    · simp [Siggo.Send, hv]
    · simp [Siggo.Send, hv]
    · intro c _
      simp [Siggo.Send, hv]
    · intro hn
      exact Option.noConfusion hn
  | none =>
    refine ⟨rfl, ?_, ?_, ?_, ?_⟩
    · simp [Siggo.Send, hv, Siggo.newConversation]
    · simp [Siggo.Send, hv, Siggo.newConversation]
    · intro c hc
      exact Option.noConfusion hc
    · intro _
      simp [Siggo.Send, hv, Siggo.newConversation]

/-- C8 amended witness: a concrete failing send leaves the conversation
registry exactly as it was. -/
theorem send_failure_amended_witness :
    ((NewSiggo { UserName := "alice", UserNumber := "+1" }).Send "hello" 0
      (some "boom")).1.conversations
      = (NewSiggo { UserName := "alice", UserNumber := "+1" }).conversations :=
  (send_failure_amended (NewSiggo { UserName := "alice", UserNumber := "+1" })
    "hello" 0 "boom").2.2.2.1 (NewConversation 0) (by decide)

/-! ## Initial state -/

/-- C10: for every configuration, the state `NewSiggo` builds holds
exactly one contact — keyed by the configured user number, named "me" —
and exactly one conversation, owned by that contact, with no messages, an
empty order and the new-message flag clear.  (Registering the transport
callbacks does not touch this state, so the result is the same for every
transport.) -/
theorem NewSiggo_initial_state (config : Config) :
    ∃ p contact conv,
      (NewSiggo config).contacts = [(config.UserNumber, p)] ∧
      lookupA (NewSiggo config).heap p = some contact ∧
      contact.Number = config.UserNumber ∧
      contact.Name = "me" ∧
      (NewSiggo config).conversations = [(p, conv)] ∧
      conv.Contact = p ∧
      conv.Messages = [] ∧
      conv.MessageOrder = [] ∧
      conv.HasNewMessage = false :=
  ⟨0, { Number := config.UserNumber, Name := "me" }, NewConversation 0,
    rfl, rfl, rfl, rfl, rfl, rfl, rfl, rfl, rfl⟩

end Siggo2Proof
